import Mathlib

/-!
Verification of the pyezsh command/key-routing spine
(`pyezsh/app/commands.py`, `pyezsh/app/keys.py`, `pyezsh/app/keyrouter.py`).

Strings are modelled through their character lists; Python dictionaries are
modelled as association lists whose update/delete operations mirror `d[k] = v`,
`del d[k]` and `d.pop(k, None)`; Python exceptions are modelled by returning
the raised error alongside the (possibly partially mutated) state.
-/

-- ---------------------------------------------------------------------------
-- Character / list-of-character utilities (Python `str` operations)
-- ---------------------------------------------------------------------------

/-- ASCII whitespace, as removed by Python `str.strip()`. -/
def isSpace (c : Char) : Bool :=
  c = ' ' || c = '\t' || c = '\n' || c = '\r' || c = '\x0b' || c = '\x0c'

/-- Lookup in a character table (Python `dict.get` on a char-keyed dict). -/
def alookupChar : List (Char × Char) → Char → Option Char
  | [], _ => none
  | (k, v) :: t, c => if k = c then some v else alookupChar t c

/-- The lowercase-to-uppercase table of the basic latin letters. -/
def LOWER_TO_UPPER : List (Char × Char) :=
  [('a', 'A'), ('b', 'B'), ('c', 'C'), ('d', 'D'), ('e', 'E'), ('f', 'F'),
   ('g', 'G'), ('h', 'H'), ('i', 'I'), ('j', 'J'), ('k', 'K'), ('l', 'L'),
   ('m', 'M'), ('n', 'N'), ('o', 'O'), ('p', 'P'), ('q', 'Q'), ('r', 'R'),
   ('s', 'S'), ('t', 'T'), ('u', 'U'), ('v', 'V'), ('w', 'W'), ('x', 'X'),
   ('y', 'Y'), ('z', 'Z')]

/-- ASCII uppercasing of one character, as done by Python `str.upper()`
on the ASCII plane. -/
def upChar (c : Char) : Char :=
  match alookupChar LOWER_TO_UPPER c with
  | some u => u
  | none => c

/-- Python `str.strip()`: drop leading and trailing whitespace. -/
def trimChars (l : List Char) : List Char :=
  ((l.dropWhile isSpace).reverse.dropWhile isSpace).reverse

/-- Python `str.split(sep)` for a one-character separator. -/
def splitOnChar (sep : Char) : List Char → List (List Char)
  | [] => [[]]
  | c :: rest =>
    if c = sep then [] :: splitOnChar sep rest
    else
      match splitOnChar sep rest with
      | [] => [[c]]
      | p :: ps => (c :: p) :: ps

/-- Python `"+".join(tokens)`. -/
def joinPlus : List (List Char) → List Char
  | [] => []
  | [t] => t
  | t :: ts => t ++ '+' :: joinPlus ts

/-- Association-list lookup, modelling Python `dict.get`. -/
def alookup {σ α : Type _} [DecidableEq σ] : List (σ × α) → σ → Option α
  | [], _ => none
  | (k, v) :: t, k' => if k = k' then some v else alookup t k'

/-- Association-list update, modelling Python `d[k] = v` (replace the value
of an existing key in place, otherwise append the new entry). -/
def aupdate {σ α : Type _} [DecidableEq σ] : List (σ × α) → σ → α → List (σ × α)
  | [], k, v => [(k, v)]
  | (k', v') :: t, k, v => if k' = k then (k, v) :: t else (k', v') :: aupdate t k v

/-- Association-list key removal, modelling Python `del d[k]` / `d.pop(k, None)`. -/
def aeraseKey {σ α : Type _} [DecidableEq σ] (l : List (σ × α)) (k : σ) : List (σ × α) :=
  l.filter (fun p => p.1 ≠ k)

-- ---------------------------------------------------------------------------
-- commands.py: shortcut normalization
-- ---------------------------------------------------------------------------

/-- `_MOD_ORDER = ("CTRL", "ALT", "SHIFT", "CMD")`. -/
def MOD_ORDER : List (List Char) :=
  ["CTRL".data, "ALT".data, "SHIFT".data, "CMD".data]

/-- Modifier-synonym classification used by `normalize_shortcut` (and, with the
same synonym sets, by `tk_to_canonical`): maps an uppercased token to the
canonical modifier it denotes, if any. -/
def modOf (up : List Char) : Option (List Char) :=
  if up = "CONTROL".data ∨ up = "CTRL".data then some "CTRL".data
  else if up = "OPTION".data ∨ up = "ALT".data then some "ALT".data
  else if up = "SHIFT".data then some "SHIFT".data
  else if up = "COMMAND".data ∨ up = "CMD".data ∨ up = "META".data then some "CMD".data
  else none

/-- `[p.strip() for p in re.split(r"\s*\+\s*", s) if p.strip()]`: splitting on
`+` while absorbing the whitespace around each `+` is the same as splitting on
`+` and stripping each piece. -/
def shortcutParts (s : List Char) : List (List Char) :=
  ((splitOnChar '+' s).map trimChars).filter (fun p => ¬p.isEmpty)

/-- The `mods` list accumulated by the classification loop of
`normalize_shortcut`: one canonical modifier name per synonym part, in order. -/
def shortcutMods (parts : List (List Char)) : List (List Char) :=
  parts.filterMap (fun p => modOf (p.map upChar))

/-- The `keys` list accumulated by the classification loop of
`normalize_shortcut`: the uppercased non-modifier parts, in order. -/
def shortcutKeys (parts : List (List Char)) : List (List Char) :=
  parts.filterMap (fun p =>
    let up := p.map upChar
    if (modOf up).isSome then none else some up)

/-- `normalize_shortcut` from commands.py.  `ValueError` is modelled by
`Except.error` carrying the message. -/
def normalize_shortcut (value : String) : Except String String :=
  let s := trimChars value.data
  if s.isEmpty then .error "Shortcut cannot be empty"
  else
    let parts := shortcutParts s
    if parts.isEmpty then .error "Invalid shortcut"
    else
      let ordered_mods := MOD_ORDER.filter (fun m => (shortcutMods parts).contains m)
      match shortcutKeys parts with
      | [k] => .ok ⟨joinPlus (ordered_mods ++ [k])⟩
      | _ => .error "Shortcut must include exactly one key"

-- ---------------------------------------------------------------------------
-- keys.py: Tk key-sequence translation
-- ---------------------------------------------------------------------------

/-- `_TK_KEYNAME_TO_SYMBOL`. -/
def TK_KEYNAME_TO_SYMBOL : List (List Char × List Char) :=
  [("COMMA".data, ",".data), ("PERIOD".data, ".".data), ("DOT".data, ".".data),
   ("SLASH".data, "/".data), ("BACKSLASH".data, "\\".data), ("MINUS".data, "-".data),
   ("UNDERSCORE".data, "_".data), ("EQUAL".data, "=".data), ("PLUS".data, "+".data),
   ("SEMICOLON".data, ";".data), ("COLON".data, ":".data), ("APOSTROPHE".data, "\x27".data),
   ("QUOTEDBL".data, "\"".data), ("BRACKETLEFT".data, "[".data),
   ("BRACKETRIGHT".data, "]".data), ("BRACELEFT".data, "\x7b".data),
   ("BRACERIGHT".data, "\x7d".data), ("GRAVE".data, "`".data),
   ("ASCIITILDE".data, "~".data)]

/-- `_TK_IGNORED_TOKENS`. -/
def isIgnoredTk (up : List Char) : Bool :=
  up = "KEYPRESS".data || up = "KEYRELEASE".data

/-- `tk_to_canonical` from keys.py. -/
def tk_to_canonical (keyseq : String) : String :=
  let s := trimChars keyseq.data
  if s.isEmpty then ⟨s⟩
  else if ¬(s.head? = some '<' ∧ s.getLast? = some '>') then ⟨s⟩
  else
    let inner := trimChars ((s.drop 1).dropLast)
    if inner.isEmpty then ⟨s⟩
    else
      let parts := ((splitOnChar '-' inner).map trimChars).filter (fun p => ¬p.isEmpty)
      if parts.isEmpty then ⟨s⟩
      else
        let mods := parts.filterMap (fun p =>
          let up := p.map upChar
          if isIgnoredTk up then none else modOf up)
        let keyTok := (parts.filterMap (fun p =>
          let up := p.map upChar
          if isIgnoredTk up then none
          else if (modOf up).isSome then none else some up)).getLast?
        match keyTok with
        | none => ⟨s⟩
        | some key0 =>
          let key1 := match alookup TK_KEYNAME_TO_SYMBOL key0 with
            | some sym => sym
            | none => key0
          let key2 := match key1 with
            | [c] => if c.isAlpha then [upChar c] else [c]
            | _ => key1
          let ordered_mods := MOD_ORDER.filter (fun m => mods.contains m)
          if ordered_mods.isEmpty then ⟨key2⟩
          else ⟨joinPlus (ordered_mods ++ [key2])⟩

example : normalize_shortcut "ctrl+o" = .ok "CTRL+O" := by rfl
example : normalize_shortcut "Ctrl + Shift + p" = .ok "CTRL+SHIFT+P" := by rfl
example : normalize_shortcut "cmd+k" = .ok "CMD+K" := by rfl
example : tk_to_canonical "<Control-q>" = "CTRL+Q" := by decide
example : tk_to_canonical "<Command-KeyPress-q>" = "CMD+Q" := by decide
example : tk_to_canonical "<Alt-F4>" = "ALT+F4" := by decide
example : tk_to_canonical "<Command-comma>" = "CMD+," := by decide
example : normalize_shortcut "cmd+," = .ok "CMD+," := by rfl

-- ---------------------------------------------------------------------------
-- commands.py: Command model and CommandRegistry
-- ---------------------------------------------------------------------------

/-- The errors raised by the registry.  `valueError` models Python
`ValueError`; `hostError` models an arbitrary exception escaping from a
host-supplied predicate callable. -/
inductive CmdError : Type where
  | valueError (msg : String)
  | commandNotFound (id : String)
  | commandAlreadyRegistered (id : String)
  | shortcutAlreadyBound (key existing : String)
  | commandNotEnabled (id : String)
  | commandNotVisible (id : String)
  | hostError (msg : String)
deriving DecidableEq, Repr

/-- `enabled` / `visible`: a plain `bool` or a host-supplied predicate.  The
predicate may itself raise (escape with an exception), modelled by `Except`. -/
def BoolOrPred (γ : Type _) : Type _ := Bool ⊕ (γ → Except String Bool)

/-- `Command` from commands.py, over a context type `γ` and a handler result
type `κ`. -/
structure Command (γ κ : Type _) where
  id : String
  label : String
  handler : γ → κ
  description : String := ""
  tags : List String := []
  shortcut : Option String := none
  enabled : BoolOrPred γ := .inl true
  visible : BoolOrPred γ := .inl true
  order : Int := 1000

/-- `CommandRegistry` state: `_commands` and `_shortcuts`. -/
structure CommandRegistry (γ κ : Type _) where
  commands : List (String × Command γ κ) := []
  shortcuts : List (String × String) := []

def CommandRegistry.empty {γ κ : Type _} : CommandRegistry γ κ := {}

/-- `_remove_shortcut_bindings_for_command`. -/
def removeShortcutBindingsForCommand {γ κ : Type _} (r : CommandRegistry γ κ)
    (command_id : String) : CommandRegistry γ κ :=
  { r with shortcuts := r.shortcuts.filter (fun p => p.2 ≠ command_id) }

/-- `bind_shortcut`.  A raised exception is returned together with the state
as left behind by the mutations performed before the raise. -/
def bind_shortcut {γ κ : Type _} (r : CommandRegistry γ κ)
    (shortcut : String) (command_id : String) (replace : Bool) :
    CommandRegistry γ κ × Option CmdError :=
  if (alookup r.commands command_id).isNone then
    (r, some (.commandNotFound command_id))
  else
    match normalize_shortcut shortcut with
    | .error m => (r, some (.valueError m))
    | .ok key =>
      match alookup r.shortcuts key with
      | some existing =>
        if replace then ({ r with shortcuts := aupdate r.shortcuts key command_id }, none)
        else (r, some (.shortcutAlreadyBound key existing))
      | none => ({ r with shortcuts := aupdate r.shortcuts key command_id }, none)

/-- `register`.  Note the mutation order of the source: the command is stored
first, and only then is its default shortcut bound — a failing default-shortcut
bind leaves the command registered. -/
def register {γ κ : Type _} (r : CommandRegistry γ κ) (command : Command γ κ)
    (replace : Bool) : CommandRegistry γ κ × Option CmdError :=
  if command.id = "" then (r, some (.valueError "Command id must be a non-empty string"))
  else if (alookup r.commands command.id).isSome ∧ replace = false then
    (r, some (.commandAlreadyRegistered command.id))
  else
    let r1 := if replace ∧ (alookup r.commands command.id).isSome then
        removeShortcutBindingsForCommand r command.id
      else r
    let r2 := { r1 with commands := aupdate r1.commands command.id command }
    match command.shortcut with
    | some s => if s = "" then (r2, none) else bind_shortcut r2 s command.id replace
    | none => (r2, none)

/-- `unregister`. -/
def unregister {γ κ : Type _} (r : CommandRegistry γ κ) (command_id : String) :
    CommandRegistry γ κ × Option CmdError :=
  if (alookup r.commands command_id).isNone then
    (r, some (.commandNotFound command_id))
  else
    let r1 := removeShortcutBindingsForCommand r command_id
    ({ r1 with commands := aeraseKey r1.commands command_id }, none)

/-- `unbind_shortcut`. -/
def unbind_shortcut {γ κ : Type _} (r : CommandRegistry γ κ) (shortcut : String) :
    CommandRegistry γ κ × Option CmdError :=
  match normalize_shortcut shortcut with
  | .error m => (r, some (.valueError m))
  | .ok key => ({ r with shortcuts := aeraseKey r.shortcuts key }, none)

/-- `has`. -/
def hasCommand {γ κ : Type _} (r : CommandRegistry γ κ) (command_id : String) : Bool :=
  (alookup r.commands command_id).isSome

/-- `get`. -/
def getCommand {γ κ : Type _} (r : CommandRegistry γ κ) (command_id : String) :
    Except CmdError (Command γ κ) :=
  match alookup r.commands command_id with
  | some c => .ok c
  | none => .error (.commandNotFound command_id)

/-- `resolve_shortcut` (read-only; the normalization `ValueError` propagates). -/
def resolve_shortcut {γ κ : Type _} (r : CommandRegistry γ κ) (shortcut : String) :
    Except String (Option String) :=
  (normalize_shortcut shortcut).map (alookup r.shortcuts)

/-- `_eval_predicate`: a `bool` is returned as is, a callable is invoked with
the context (and `bool(...)`-coerced); nothing guards a raise inside it. -/
def evalPredicate {γ : Type _} (value : BoolOrPred γ) (ctx : γ) : Except String Bool :=
  match value with
  | .inl b => .ok b
  | .inr f => f ctx

/-- `is_visible`. -/
def is_visible {γ κ : Type _} (r : CommandRegistry γ κ) (command_id : String) (ctx : γ) :
    Except CmdError Bool :=
  match alookup r.commands command_id with
  | none => .error (.commandNotFound command_id)
  | some cmd => (evalPredicate cmd.visible ctx).mapError .hostError

/-- `is_enabled`. -/
def is_enabled {γ κ : Type _} (r : CommandRegistry γ κ) (command_id : String) (ctx : γ) :
    Except CmdError Bool :=
  match alookup r.commands command_id with
  | none => .error (.commandNotFound command_id)
  | some cmd => (evalPredicate cmd.enabled ctx).mapError .hostError

/-- `execute`: not-found check, then (when `require_visible`) visibility, then
enablement, then the handler.  The visibility predicate is not invoked at all
when `require_visible` is false (Python short-circuit `and`). -/
def execute {γ κ : Type _} (r : CommandRegistry γ κ) (command_id : String) (ctx : γ)
    (require_visible : Bool) : Except CmdError κ :=
  match alookup r.commands command_id with
  | none => .error (.commandNotFound command_id)
  | some cmd =>
    let afterVisible : Except CmdError Unit :=
      if require_visible then
        match evalPredicate cmd.visible ctx with
        | .error m => .error (.hostError m)
        | .ok v => if v then .ok () else .error (.commandNotVisible command_id)
      else .ok ()
    match afterVisible with
    | .error e => .error e
    | .ok _ =>
      match evalPredicate cmd.enabled ctx with
      | .error m => .error (.hostError m)
      | .ok e => if e then .ok (cmd.handler ctx) else .error (.commandNotEnabled command_id)

-- ---------------------------------------------------------------------------
-- keys.py: KeyMap
-- ---------------------------------------------------------------------------

/-- `KeyMap` from keys.py: `_bindings`. -/
structure KeyMap where
  bindings : List (String × String) := []
deriving DecidableEq, Repr

/-- `KeyMap.bind`. -/
def KeyMap.bind (m : KeyMap) (keyseq command_id : String) (overwrite : Bool) :
    KeyMap × Option CmdError :=
  if keyseq = "" then (m, some (.valueError "keyseq must be a non-empty string"))
  else if command_id = "" then (m, some (.valueError "command_id must be a non-empty string"))
  else if overwrite = false ∧ (alookup m.bindings keyseq).isSome then
    (m, some (.valueError "Key binding already exists"))
  else ({ bindings := aupdate m.bindings keyseq command_id }, none)

/-- `KeyMap.unbind`. -/
def KeyMap.unbind (m : KeyMap) (keyseq : String) : KeyMap :=
  { bindings := aeraseKey m.bindings keyseq }

/-- `KeyMap.clear`. -/
def KeyMap.clear (_ : KeyMap) : KeyMap := { bindings := [] }

/-- `KeyMap.resolve`: direct lookup only. -/
def KeyMap.resolve (m : KeyMap) (keyseq : String) : Option String :=
  alookup m.bindings keyseq

/-- `KeyMap.resolve_keyseq`: exact/raw match first (a truthy hit returns
immediately), then the Tk-translated canonical form when it differs. -/
def KeyMap.resolve_keyseq (m : KeyMap) (keyseq : String) : Option String :=
  if keyseq = "" then none
  else
    match alookup m.bindings keyseq with
    | some cid =>
      if cid = "" then
        (let canon := tk_to_canonical keyseq
         if canon = keyseq then none else alookup m.bindings canon)
      else some cid
    | none =>
      let canon := tk_to_canonical keyseq
      if canon = keyseq then none else alookup m.bindings canon

-- ---------------------------------------------------------------------------
-- keyrouter.py: KeyRouter
-- ---------------------------------------------------------------------------

/-- A telemetry emission, as observed by a sink: a named counter metric or a
named event.  Attributes are kept as string pairs. -/
inductive TelemetrySignal : Type where
  | counter (label : String) (value : Int) (attrs : List (String × String))
  | event (label : String) (attrs : List (String × String))
deriving DecidableEq, Repr

/-- `KeyRouter` from keyrouter.py.  Its fields are exactly the fields of the
source dataclass: `registry`, `global_keymap`, `mode_keymaps`, `_mode`,
`component_keymaps`, `focus_provider` — the dataclass accepts no telemetry
sink. -/
structure KeyRouter (γ κ : Type _) where
  registry : CommandRegistry γ κ
  global_keymap : KeyMap
  mode_keymaps : List (String × KeyMap) := []
  mode : Option String := none
  component_keymaps : List (String × KeyMap) := []
  focus_provider : Option (Unit → Option String) := none

/-- `set_mode`. -/
def KeyRouter.set_mode {γ κ : Type _} (r : KeyRouter γ κ) (m : Option String) :
    KeyRouter γ κ := { r with mode := m }

/-- `set_focus_provider`. -/
def KeyRouter.set_focus_provider {γ κ : Type _} (r : KeyRouter γ κ)
    (p : Option (Unit → Option String)) : KeyRouter γ κ := { r with focus_provider := p }

/-- `register_mode_keymap`. -/
def KeyRouter.register_mode_keymap {γ κ : Type _} (r : KeyRouter γ κ) (mode : String)
    (km : KeyMap) : KeyRouter γ κ := { r with mode_keymaps := aupdate r.mode_keymaps mode km }

/-- `unregister_mode_keymap`. -/
def KeyRouter.unregister_mode_keymap {γ κ : Type _} (r : KeyRouter γ κ) (mode : String) :
    KeyRouter γ κ := { r with mode_keymaps := aeraseKey r.mode_keymaps mode }

/-- `register_component_keymap`. -/
def KeyRouter.register_component_keymap {γ κ : Type _} (r : KeyRouter γ κ)
    (component_id : String) (km : KeyMap) : KeyRouter γ κ :=
  { r with component_keymaps := aupdate r.component_keymaps component_id km }

/-- `unregister_component_keymap`. -/
def KeyRouter.unregister_component_keymap {γ κ : Type _} (r : KeyRouter γ κ)
    (component_id : String) : KeyRouter γ κ :=
  { r with component_keymaps := aeraseKey r.component_keymaps component_id }

/-- `resolve_command_id`, exactly as the nested early-return code of the
source: focused component map, then mode map, then the global map. -/
def KeyRouter.resolve_command_id {γ κ : Type _} (r : KeyRouter γ κ) (keyseq : String) :
    Option String :=
  let focus_id := match r.focus_provider with
    | some f => f ()
    | none => none
  let step1 := match focus_id with
    | some fid =>
      if fid = "" then none
      else
        match alookup r.component_keymaps fid with
        | some km =>
          (match km.resolve_keyseq keyseq with
           | some cid => if cid = "" then none else some cid
           | none => none)
        | none => none
    | none => none
  match step1 with
  | some cid => some cid
  | none =>
    let step2 := match r.mode with
      | some m =>
        if m = "" then none
        else
          match alookup r.mode_keymaps m with
          | some km =>
            (match km.resolve_keyseq keyseq with
             | some cid => if cid = "" then none else some cid
             | none => none)
          | none => none
      | none => none
    match step2 with
    | some cid => some cid
    | none => r.global_keymap.resolve_keyseq keyseq

/-- `route_keyseq`.  The second component is the trace of telemetry emissions
the call performs; the source performs none. -/
def KeyRouter.route_keyseq {γ κ : Type _} (r : KeyRouter γ κ) (keyseq : String) (ctx : γ) :
    Except CmdError Bool × List TelemetrySignal :=
  match r.resolve_command_id keyseq with
  | none => (.ok false, [])
  | some cid =>
    if cid = "" then (.ok false, [])
    else
      match execute r.registry cid ctx true with
      | .error e => (.error e, [])
      | .ok _ => (.ok true, [])

-- ---------------------------------------------------------------------------
-- Association-list lemmas
-- ---------------------------------------------------------------------------

theorem alookup_aupdate_self {σ α : Type _} [DecidableEq σ] (l : List (σ × α)) (k : σ) (v : α) :
    alookup (aupdate l k v) k = some v := by
  induction l with
  | nil => simp [aupdate, alookup]
  | cons p t ih =>
    obtain ⟨k', v'⟩ := p
    by_cases h : k' = k <;> simp [aupdate, alookup, h, ih]

theorem alookup_aupdate_ne {σ α : Type _} [DecidableEq σ] (l : List (σ × α)) (k k' : σ) (v : α)
    (h : k' ≠ k) : alookup (aupdate l k v) k' = alookup l k' := by
  have h' : ¬(k = k') := fun hh => h hh.symm
  induction l with
  | nil => simp [aupdate, alookup, h']
  | cons p t ih =>
    obtain ⟨k₀, v₀⟩ := p
    by_cases h₀ : k₀ = k
    · subst h₀
      simp [aupdate, alookup, h']
    · by_cases h₁ : k₀ = k' <;> simp [aupdate, alookup, h₀, h₁, ih, h, h']

theorem mem_aupdate {σ α : Type _} [DecidableEq σ] {l : List (σ × α)} {k : σ} {v : α}
    {x : σ × α} (hx : x ∈ aupdate l k v) : x = (k, v) ∨ x ∈ l := by
  induction l with
  | nil => simpa [aupdate] using hx
  | cons p t ih =>
    obtain ⟨k₀, v₀⟩ := p
    by_cases h₀ : k₀ = k
    · simp only [aupdate, if_pos h₀] at hx
      rcases List.mem_cons.mp hx with h | h
      · exact Or.inl h
      · exact Or.inr (List.mem_cons_of_mem _ h)
    · simp only [aupdate, if_neg h₀] at hx
      rcases List.mem_cons.mp hx with h | h
      · exact Or.inr (List.mem_cons.mpr (Or.inl h))
      · rcases ih h with h' | h'
        · exact Or.inl h'
        · exact Or.inr (List.mem_cons_of_mem _ h')

theorem mem_aupdate_self_of_nodup {σ α : Type _} [DecidableEq σ] {l : List (σ × α)} {k : σ}
    {v c : α} (hnd : (l.map Prod.fst).Nodup) (hx : (k, c) ∈ aupdate l k v) : c = v := by
  induction l with
  | nil =>
    simp [aupdate] at hx
    exact hx
  | cons p t ih =>
    obtain ⟨k₀, v₀⟩ := p
    simp only [List.map_cons, List.nodup_cons] at hnd
    by_cases h₀ : k₀ = k
    · subst h₀
      simp only [aupdate, if_pos rfl] at hx
      rcases List.mem_cons.mp hx with h | h
      · exact (Prod.mk.injEq _ _ _ _ ▸ h).2
      · exact absurd (List.mem_map_of_mem Prod.fst h) hnd.1
    · simp only [aupdate, if_neg h₀] at hx
      rcases List.mem_cons.mp hx with h | h
      · exact absurd (congrArg Prod.fst h).symm h₀
      · exact ih hnd.2 h

theorem alookup_aeraseKey {σ α : Type _} [DecidableEq σ] (l : List (σ × α)) (k k' : σ) :
    alookup (aeraseKey l k) k' = if k' = k then none else alookup l k' := by
  induction l with
  | nil => by_cases h : k' = k <;> simp [aeraseKey, alookup, h]
  | cons p t ih =>
    obtain ⟨k₀, v₀⟩ := p
    by_cases h₀ : k₀ = k
    · subst h₀
      have hdrop : aeraseKey ((k₀, v₀) :: t) k₀ = aeraseKey t k₀ := by
        simp [aeraseKey]
      rw [hdrop, ih]
      by_cases h₁ : k' = k₀
      · simp [h₁]
      · have h₂ : ¬(k₀ = k') := fun hh => h₁ hh.symm
        simp [alookup, h₁, h₂]
    · have hkeep : aeraseKey ((k₀, v₀) :: t) k = (k₀, v₀) :: aeraseKey t k := by
        simp [aeraseKey, h₀]
      rw [hkeep]
      by_cases h₁ : k₀ = k'
      · subst h₁
        simp [alookup, h₀]
      · simp [alookup, h₁, ih]

theorem mem_aeraseKey {σ α : Type _} [DecidableEq σ] {l : List (σ × α)} {k : σ} {x : σ × α}
    (hx : x ∈ aeraseKey l k) : x ∈ l ∧ x.1 ≠ k := by
  have := List.of_mem_filter hx
  exact ⟨List.mem_of_mem_filter hx, by simpa using this⟩

theorem mem_alookup {σ α : Type _} [DecidableEq σ] {l : List (σ × α)} {k : σ} {v : α}
    (h : alookup l k = some v) : (k, v) ∈ l := by
  induction l with
  | nil => simp [alookup] at h
  | cons p t ih =>
    obtain ⟨k₀, v₀⟩ := p
    by_cases h₀ : k₀ = k
    · subst h₀
      simp only [alookup, if_pos rfl] at h
      obtain rfl : v₀ = v := by injection h
      exact List.mem_cons_self _ _
    · simp only [alookup, if_neg h₀] at h
      exact List.mem_cons_of_mem _ (ih h)

-- ---------------------------------------------------------------------------
-- Claim C2
-- ---------------------------------------------------------------------------

/-- Claim C2, counterexample: the claim asserts that `normalize("cmd+,")`
fails, but `normalize_shortcut "cmd+,"` succeeds — the comma survives the
`+`-split as a literal one-character key token, so no punctuation table is
needed. -/
theorem C2_counterexample : (normalize_shortcut "cmd+,").isOk = true := by rfl

/-- Claim C2, amended: `normalize("cmd+,")` succeeds and returns `"CMD+,"`
(the comma is parsed as the single key token), and
`translate_platform_keyseq("<Command-comma>")` returns `"CMD+,"`. -/
theorem C2_normalize_comma :
    normalize_shortcut "cmd+," = .ok "CMD+," ∧ tk_to_canonical "<Command-comma>" = "CMD+," := by
  exact ⟨by rfl, by rfl⟩

-- ---------------------------------------------------------------------------
-- Claim C1
-- ---------------------------------------------------------------------------

/-- Registry of the repository's telemetry test for an unhandled key:
one command `"x"`, an empty global keymap. -/
def c1Registry : CommandRegistry Unit Unit :=
  (register .empty { id := "x", label := "X", handler := fun _ => () } false).1

def c1Router : KeyRouter Unit Unit :=
  { registry := c1Registry, global_keymap := {} }

/-- Registry/keymap of the repository's telemetry test for a global-layer
dispatch: command `"app.quit"`, global keymap binding `<Control-q>`. -/
def c1RegistryB : CommandRegistry Unit Unit :=
  (register .empty { id := "app.quit", label := "Quit", handler := fun _ => () } false).1

def c1KeymapB : KeyMap := (KeyMap.bind {} "<Control-q>" "app.quit" true).1

def c1RouterB : KeyRouter Unit Unit :=
  { registry := c1RegistryB, global_keymap := c1KeymapB }

/-- Claim C1: contrary to the claim (and to the repository's own
`test_keyrouter.py` telemetry tests, which pass a `telemetry=` argument that
the `KeyRouter` dataclass does not accept), `route_keyseq` emits no telemetry
at all: on an unhandled key it returns `false` with an empty emission trace
instead of one key-pressed counter and one key-unhandled event, and on a
successful global-layer dispatch it returns `true` with an empty emission
trace instead of one key-pressed counter and one command-dispatched event. -/
theorem C1_route_keyseq_emits_no_telemetry :
    c1Router.route_keyseq "<Control-q>" () = (.ok false, [])
    ∧ c1RouterB.route_keyseq "<Control-q>" () = (.ok true, []) := by
  exact ⟨by rfl, by rfl⟩

-- ---------------------------------------------------------------------------
-- Claim C3
-- ---------------------------------------------------------------------------

/-- Claim C3: `execute` fails with `CommandNotFound` on an unknown id; for a
registered command whose predicates evaluate to booleans `v` (visible) and
`e` (enabled), it fails with `CommandNotVisible` when `require_visible` holds
and `v` is false, otherwise fails with `CommandNotEnabled` when `e` is false
(so enablement is checked even when `require_visible` is false, and
visibility is evaluated first), and otherwise returns the handler's result —
the handler result is produced in no failing case. -/
theorem C3_execute_checks {γ κ : Type _} (r : CommandRegistry γ κ) (cid : String)
    (ctx : γ) (rv : Bool) :
    (alookup r.commands cid = none → execute r cid ctx rv = .error (.commandNotFound cid))
    ∧ (∀ (cmd : Command γ κ) (v e : Bool),
        alookup r.commands cid = some cmd →
        evalPredicate cmd.visible ctx = .ok v →
        evalPredicate cmd.enabled ctx = .ok e →
        execute r cid ctx rv =
          if rv = true ∧ v = false then .error (.commandNotVisible cid)
          else if e = false then .error (.commandNotEnabled cid)
          else .ok (cmd.handler ctx)) := by
  constructor
  · intro h
    simp [execute, h]
  · intro cmd v e h hv he
    cases rv <;> cases v <;> cases e <;> simp [execute, h, hv, he]

def c3Cmd : Command Unit Nat :=
  { id := "x", label := "X", handler := fun _ => 7, enabled := .inl false }

def c3Reg : CommandRegistry Unit Nat := (register .empty c3Cmd false).1

/-- Witness for C3 at a concrete disabled command: the handler is not invoked
and `CommandNotEnabled` is reported. -/
theorem C3_execute_checks_witness :
    execute c3Reg "x" () true = .error (.commandNotEnabled "x") := by
  have h := (C3_execute_checks c3Reg "x" () true).2 c3Cmd true false (by rfl) (by rfl) (by rfl)
  simpa using h

-- ---------------------------------------------------------------------------
-- Claim C7
-- ---------------------------------------------------------------------------

def c7Cmd : Command Unit Unit :=
  { id := "x", label := "X", handler := fun _ => (),
    visible := .inr (fun _ => .error "boom") }

def c7Reg : CommandRegistry Unit Unit := (register .empty c7Cmd false).1

/-- Claim C7, counterexample: `"x"` is registered, yet `is_visible` does not
produce a boolean — the failure raised inside the host-supplied visibility
predicate propagates to the caller. -/
theorem C7_counterexample :
    hasCommand c7Reg "x" = true ∧ is_visible c7Reg "x" () = .error (.hostError "boom") := by
  exact ⟨by rfl, by rfl⟩

/-- Claim C7, amended: for a registered command, `is_visible` / `is_enabled`
return exactly the outcome of the predicate evaluation — a boolean when the
predicate is a boolean or returns normally, and the propagated failure when a
host-supplied predicate raises; nothing is caught. -/
theorem C7_predicate_outcome_passthrough {γ κ : Type _} (r : CommandRegistry γ κ)
    (cid : String) (ctx : γ) (cmd : Command γ κ)
    (h : alookup r.commands cid = some cmd) :
    is_visible r cid ctx = (evalPredicate cmd.visible ctx).mapError CmdError.hostError
    ∧ is_enabled r cid ctx = (evalPredicate cmd.enabled ctx).mapError CmdError.hostError := by
  constructor <;> simp [is_visible, is_enabled, h]

/-- Witness for C7 at the concrete failing-predicate command. -/
theorem C7_predicate_outcome_passthrough_witness :
    is_visible c7Reg "x" () = (evalPredicate c7Cmd.visible ()).mapError CmdError.hostError :=
  (C7_predicate_outcome_passthrough c7Reg "x" () c7Cmd (by rfl)).1

-- ---------------------------------------------------------------------------
-- Claim C10
-- ---------------------------------------------------------------------------

/-- Claim C10: `register` is not atomic with respect to the default-shortcut
binding.  For a fresh command whose default shortcut normalizes to a key
already bound to a different command, `register` with `replace = false`
raises `ShortcutAlreadyBound`, yet the command table was already mutated:
afterwards `has` is true and `get` returns the new command, while the
shortcut still resolves to the previously bound command. -/
theorem C10_register_not_atomic {γ κ : Type _} (r : CommandRegistry γ κ)
    (cmd : Command γ κ) (s key oldId : String)
    (hid : ¬cmd.id = "") (hfresh : alookup r.commands cmd.id = none)
    (hs : cmd.shortcut = some s) (hs0 : ¬s = "")
    (hnorm : normalize_shortcut s = .ok key)
    (hbound : alookup r.shortcuts key = some oldId) :
    (register r cmd false).2 = some (.shortcutAlreadyBound key oldId)
    ∧ hasCommand (register r cmd false).1 cmd.id = true
    ∧ getCommand (register r cmd false).1 cmd.id = .ok cmd
    ∧ resolve_shortcut (register r cmd false).1 s = .ok (some oldId) := by
  have hreg : register r cmd false =
      (({ r with commands := aupdate r.commands cmd.id cmd } : CommandRegistry γ κ),
       some (.shortcutAlreadyBound key oldId)) := by
    simp only [register, if_neg hid, hfresh, hs]
    simp only [Option.isSome_none, false_and, and_false, if_neg, ite_false, if_neg hs0]
    simp [bind_shortcut, alookup_aupdate_self, hnorm, hbound]
  refine ⟨by rw [hreg], ?_, ?_, ?_⟩
  · rw [hreg]
    simp [hasCommand, alookup_aupdate_self]
  · rw [hreg]
    simp [getCommand, alookup_aupdate_self]
  · rw [hreg]
    simp [resolve_shortcut, hnorm, hbound, Except.map]

def c10Old : Command Unit Nat := { id := "old", label := "Old", handler := fun _ => 1 }

def c10New : Command Unit Nat :=
  { id := "new", label := "New", handler := fun _ => 2, shortcut := some "ctrl+n" }

def c10Reg : CommandRegistry Unit Nat :=
  (bind_shortcut (register .empty c10Old false).1 "ctrl+n" "old" false).1

/-- Witness for C10 at a concrete registry: the failed `register` leaves the
new command registered while `CTRL+N` still resolves to `"old"`. -/
theorem C10_register_not_atomic_witness :
    (register c10Reg c10New false).2 = some (.shortcutAlreadyBound "CTRL+N" "old")
    ∧ hasCommand (register c10Reg c10New false).1 "new" = true
    ∧ getCommand (register c10Reg c10New false).1 "new" = .ok c10New
    ∧ resolve_shortcut (register c10Reg c10New false).1 "ctrl+n" = .ok (some "old") :=
  C10_register_not_atomic c10Reg c10New "ctrl+n" "CTRL+N" "old"
    (by decide) (by rfl) (by rfl) (by decide) (by rfl) (by rfl)

-- ---------------------------------------------------------------------------
-- Claim C6
-- ---------------------------------------------------------------------------

/-- Claim C6: on a canonical shortcut already bound to `oldId`, binding a
different registered command `newId` with `replace = false` fails with
`ShortcutAlreadyBound` and leaves the state (hence the old binding) intact,
while `resolve_shortcut` still yields `oldId`; with `replace = true` the bind
succeeds and `resolve_shortcut` yields `newId`, the only command the key is
bound to. -/
theorem C6_shortcut_exclusivity {γ κ : Type _} (r : CommandRegistry γ κ)
    (s key oldId newId : String)
    (hnorm : normalize_shortcut s = .ok key)
    (hbound : alookup r.shortcuts key = some oldId)
    (hreg : (alookup r.commands newId).isSome)
    (hne : newId ≠ oldId)
    (hnd : (r.shortcuts.map Prod.fst).Nodup) :
    bind_shortcut r s newId false = (r, some (.shortcutAlreadyBound key oldId))
    ∧ resolve_shortcut r s = .ok (some oldId)
    ∧ (bind_shortcut r s newId true).2 = none
    ∧ resolve_shortcut (bind_shortcut r s newId true).1 s = .ok (some newId)
    ∧ ∀ c, (key, c) ∈ (bind_shortcut r s newId true).1.shortcuts → c = newId := by
  have hIsNone : (alookup r.commands newId).isNone = false := by
    cases h : alookup r.commands newId
    · rw [h] at hreg
      simp at hreg
    · rfl
  have hfalse : bind_shortcut r s newId false = (r, some (.shortcutAlreadyBound key oldId)) := by
    simp [bind_shortcut, hIsNone, hnorm, hbound]
  have htrue : bind_shortcut r s newId true =
      (({ r with shortcuts := aupdate r.shortcuts key newId } : CommandRegistry γ κ), none) := by
    simp [bind_shortcut, hIsNone, hnorm, hbound]
  refine ⟨hfalse, ?_, ?_, ?_, ?_⟩
  · simp [resolve_shortcut, hnorm, hbound, Except.map]
  · rw [htrue]
  · rw [htrue]
    simp [resolve_shortcut, hnorm, alookup_aupdate_self, Except.map]
  · intro c hc
    rw [htrue] at hc
    exact mem_aupdate_self_of_nodup hnd hc

def c6Reg : CommandRegistry Unit Nat :=
  (bind_shortcut
    (register (register .empty { id := "a", label := "A", handler := fun _ => 1 } false).1
      { id := "b", label := "B", handler := fun _ => 2 } false).1
    "ctrl+x" "a" false).1

/-- Witness for C6 at a concrete registry where `CTRL+X` is bound to `"a"`
and `"b"` is the competing command. -/
theorem C6_shortcut_exclusivity_witness :
    bind_shortcut c6Reg "ctrl+x" "b" false
      = (c6Reg, some (.shortcutAlreadyBound "CTRL+X" "a"))
    ∧ resolve_shortcut c6Reg "ctrl+x" = .ok (some "a")
    ∧ (bind_shortcut c6Reg "ctrl+x" "b" true).2 = none
    ∧ resolve_shortcut (bind_shortcut c6Reg "ctrl+x" "b" true).1 "ctrl+x" = .ok (some "b") := by
  have h := C6_shortcut_exclusivity c6Reg "ctrl+x" "CTRL+X" "a" "b"
    (by rfl) (by rfl) (by rfl) (by decide) (by decide)
  exact ⟨h.1, h.2.1, h.2.2.1, h.2.2.2.1⟩

-- ---------------------------------------------------------------------------
-- Claim C5
-- ---------------------------------------------------------------------------

/-- One mutating registry operation. -/
inductive RegistryOp (γ κ : Type _) where
  | register (cmd : Command γ κ) (replace : Bool)
  | unregister (id : String)
  | bind (shortcut id : String) (replace : Bool)
  | unbind (shortcut : String)

/-- Apply one operation, keeping whatever state the operation leaves behind
(also when it raises). -/
def applyOp {γ κ : Type _} (r : CommandRegistry γ κ) : RegistryOp γ κ → CommandRegistry γ κ
  | .register cmd rep => (register r cmd rep).1
  | .unregister cid => (unregister r cid).1
  | .bind s cid rep => (bind_shortcut r s cid rep).1
  | .unbind s => (unbind_shortcut r s).1

def applyOps {γ κ : Type _} (r : CommandRegistry γ κ) (ops : List (RegistryOp γ κ)) :
    CommandRegistry γ κ :=
  ops.foldl applyOp r

/-- Every entry of the shortcut index references a currently-registered
command id. -/
def ShortcutIndexInv {γ κ : Type _} (r : CommandRegistry γ κ) : Prop :=
  ∀ p ∈ r.shortcuts, (alookup r.commands p.2).isSome = true

instance {γ κ : Type _} (r : CommandRegistry γ κ) : Decidable (ShortcutIndexInv r) := by
  unfold ShortcutIndexInv
  infer_instance

theorem isSome_alookup_aupdate {σ α : Type _} [DecidableEq σ] {l : List (σ × α)} {k' : σ}
    (k : σ) (v : α) (h : (alookup l k').isSome = true) :
    (alookup (aupdate l k v) k').isSome = true := by
  by_cases hk : k' = k
  · subst hk
    simp [alookup_aupdate_self]
  · rw [alookup_aupdate_ne _ _ _ _ hk]
    exact h

theorem inv_bind_shortcut {γ κ : Type _} {r : CommandRegistry γ κ} (s cid : String)
    (rep : Bool) (hInv : ShortcutIndexInv r) :
    ShortcutIndexInv (bind_shortcut r s cid rep).1 := by
  unfold bind_shortcut
  cases hn : (alookup r.commands cid).isNone
  · cases hkey : normalize_shortcut s with
    | error m => simpa using hInv
    | ok key =>
      have hcid : (alookup r.commands cid).isSome = true := by
        cases hc : alookup r.commands cid
        · rw [hc] at hn
          simp at hn
        · rfl
      have hupd : ShortcutIndexInv
          ({ r with shortcuts := aupdate r.shortcuts key cid } : CommandRegistry γ κ) := by
        intro p hp
        rcases mem_aupdate hp with h | h
        · subst h
          exact hcid
        · exact hInv p h
      cases hb : alookup r.shortcuts key with
      | some existing =>
        cases rep
        · simpa [hn, hkey, hb] using hInv
        · simpa [hn, hkey, hb] using hupd
      | none => simpa [hn, hkey, hb] using hupd
  · simpa [hn] using hInv

theorem inv_register {γ κ : Type _} {r : CommandRegistry γ κ} (cmd : Command γ κ)
    (rep : Bool) (hInv : ShortcutIndexInv r) : ShortcutIndexInv (register r cmd rep).1 := by
  unfold register
  by_cases hid : cmd.id = ""
  · simpa [hid] using hInv
  · by_cases hdup : (alookup r.commands cmd.id).isSome ∧ rep = false
    · simpa [hid, hdup] using hInv
    · have hr1 : ShortcutIndexInv (if rep ∧ (alookup r.commands cmd.id).isSome then
          removeShortcutBindingsForCommand r cmd.id else r) := by
        split
        · intro p hp
          exact hInv p (List.mem_of_mem_filter hp)
        · exact hInv
      set r1 := if rep ∧ (alookup r.commands cmd.id).isSome then
          removeShortcutBindingsForCommand r cmd.id else r with hr1def
      have hr2 : ShortcutIndexInv
          ({ r1 with commands := aupdate r1.commands cmd.id cmd } : CommandRegistry γ κ) := by
        intro p hp
        exact isSome_alookup_aupdate _ _ (hr1 p hp)
      simp only [if_neg hid, if_neg hdup]
      cases hs : cmd.shortcut with
      | none => simpa using hr2
      | some s =>
        by_cases hs0 : s = ""
        · simpa [hs0] using hr2
        · simpa [hs0] using inv_bind_shortcut s cmd.id rep hr2

theorem inv_unregister {γ κ : Type _} {r : CommandRegistry γ κ} (cid : String)
    (hInv : ShortcutIndexInv r) : ShortcutIndexInv (unregister r cid).1 := by
  unfold unregister
  split
  · exact hInv
  · intro p hp
    simp only [removeShortcutBindingsForCommand] at hp
    have h1 : p ∈ r.shortcuts := List.mem_of_mem_filter hp
    have h2 : ¬(p.2 = cid) := by simpa using List.of_mem_filter hp
    show (alookup (aeraseKey (removeShortcutBindingsForCommand r cid).commands cid) p.2).isSome
      = true
    rw [show (removeShortcutBindingsForCommand r cid).commands = r.commands from rfl]
    rw [alookup_aeraseKey, if_neg h2]
    exact hInv p h1

theorem inv_unbind_shortcut {γ κ : Type _} {r : CommandRegistry γ κ} (s : String)
    (hInv : ShortcutIndexInv r) : ShortcutIndexInv (unbind_shortcut r s).1 := by
  unfold unbind_shortcut
  cases hkey : normalize_shortcut s with
  | error m => exact hInv
  | ok key =>
    intro p hp
    exact hInv p (mem_aeraseKey hp).1

theorem inv_applyOp {γ κ : Type _} {r : CommandRegistry γ κ} (op : RegistryOp γ κ)
    (hInv : ShortcutIndexInv r) : ShortcutIndexInv (applyOp r op) := by
  cases op with
  | register cmd rep => exact inv_register cmd rep hInv
  | unregister cid => exact inv_unregister cid hInv
  | bind s cid rep => exact inv_bind_shortcut s cid rep hInv
  | unbind s => exact inv_unbind_shortcut s hInv

theorem inv_applyOps {γ κ : Type _} {r : CommandRegistry γ κ}
    (ops : List (RegistryOp γ κ)) (hInv : ShortcutIndexInv r) :
    ShortcutIndexInv (applyOps r ops) := by
  induction ops generalizing r with
  | nil => exact hInv
  | cons op rest ih => exact ih (inv_applyOp op hInv)

/-- The state `register` reaches just before the default-shortcut bind:
stale bindings removed (on replace of an existing id) and the command table
updated. -/
def registerBase {γ κ : Type _} (r : CommandRegistry γ κ) (cmd : Command γ κ)
    (rep : Bool) : CommandRegistry γ κ :=
  let r1 := if rep ∧ (alookup r.commands cmd.id).isSome then
      removeShortcutBindingsForCommand r cmd.id
    else r
  { r1 with commands := aupdate r1.commands cmd.id cmd }

theorem register_eq_cases {γ κ : Type _} (r : CommandRegistry γ κ) (cmd : Command γ κ)
    (rep : Bool) (hid : ¬cmd.id = "")
    (hdup : ¬((alookup r.commands cmd.id).isSome = true ∧ rep = false)) :
    register r cmd rep =
      match cmd.shortcut with
      | some s =>
        if s = "" then (registerBase r cmd rep, none)
        else bind_shortcut (registerBase r cmd rep) s cmd.id rep
      | none => (registerBase r cmd rep, none) := by
  simp only [register, registerBase, if_neg hid, if_neg hdup]

theorem mem_bind_shortcut {γ κ : Type _} (r : CommandRegistry γ κ) (s cid : String)
    (rep : Bool) (p : String × String) (hp : p ∈ (bind_shortcut r s cid rep).1.shortcuts) :
    p ∈ r.shortcuts ∨ ∃ key, normalize_shortcut s = .ok key ∧ p = (key, cid) := by
  unfold bind_shortcut at hp
  split at hp
  · exact Or.inl hp
  · split at hp
    · exact Or.inl hp
    · rename_i key hkey
      split at hp
      · split at hp
        · rcases mem_aupdate hp with h | h
          · exact Or.inr ⟨key, hkey, h⟩
          · exact Or.inl h
        · exact Or.inl hp
      · rcases mem_aupdate hp with h | h
        · exact Or.inr ⟨key, hkey, h⟩
        · exact Or.inl h

/-- Claim C5: (1) every registry state reachable from the empty registry by
any sequence of `register` / `unregister` / `bind_shortcut` /
`unbind_shortcut` operations satisfies the shortcut-index invariant — every
shortcut entry references a currently-registered command id; (2) after
`unregister(id)` the command is gone and no shortcut entry points at it;
(3) after `register` with `replace = true`, the only shortcut binding that
may point at the command's id is its own freshly bound default shortcut. -/
theorem C5_shortcut_index_invariant {γ κ : Type _} :
    (∀ ops : List (RegistryOp γ κ), ShortcutIndexInv (applyOps CommandRegistry.empty ops))
    ∧ (∀ (r : CommandRegistry γ κ) (cid : String), ShortcutIndexInv r →
        alookup (unregister r cid).1.commands cid = none
        ∧ ∀ p ∈ (unregister r cid).1.shortcuts, p.2 ≠ cid)
    ∧ (∀ (r : CommandRegistry γ κ) (cmd : Command γ κ), ShortcutIndexInv r → ¬cmd.id = "" →
        ∀ p ∈ (register r cmd true).1.shortcuts, p.2 = cmd.id →
          ∃ s, cmd.shortcut = some s ∧ ¬s = "" ∧ normalize_shortcut s = .ok p.1) := by
  refine ⟨?_, ?_, ?_⟩
  · intro ops
    refine inv_applyOps ops ?_
    intro p hp
    simp [CommandRegistry.empty] at hp
  · intro r cid hInv
    unfold unregister
    cases hn : (alookup r.commands cid).isNone
    · constructor
      · show alookup (aeraseKey (removeShortcutBindingsForCommand r cid).commands cid) cid = none
        rw [show (removeShortcutBindingsForCommand r cid).commands = r.commands from rfl]
        rw [alookup_aeraseKey, if_pos rfl]
      · intro p hp
        simp only [removeShortcutBindingsForCommand] at hp
        simpa using List.of_mem_filter hp
    · have hnone : alookup r.commands cid = none := by
        cases hc : alookup r.commands cid
        · rfl
        · rw [hc] at hn
          simp at hn
      constructor
      · simpa [hn] using hnone
      · intro p hp
        simp only [hn] at hp
        intro hcontra
        have := hInv p hp
        rw [hcontra, hnone] at this
        simp at this
  · intro r cmd hInv hid
    have hstale : ∀ p ∈ (registerBase r cmd true).shortcuts, p.2 ≠ cmd.id := by
      intro p hp
      have hp' : p ∈ (if true ∧ (alookup r.commands cmd.id).isSome then
          removeShortcutBindingsForCommand r cmd.id else r).shortcuts := hp
      revert hp'
      split
      · intro hp'
        simpa using List.of_mem_filter hp'
      · rename_i hcase
        intro hp' hcontra
        have hsome := hInv p hp'
        rw [hcontra] at hsome
        exact hcase ⟨rfl, hsome⟩
    have hdup : ¬((alookup r.commands cmd.id).isSome = true ∧ true = false) := by
      intro h
      exact absurd h.2 (by simp)
    rw [register_eq_cases r cmd true hid hdup]
    cases hs : cmd.shortcut with
    | none =>
      intro p hp hval
      exact absurd hval (hstale p hp)
    | some s =>
      show ∀ p ∈ (if s = "" then (registerBase r cmd true, none)
          else bind_shortcut (registerBase r cmd true) s cmd.id true).1.shortcuts,
        p.2 = cmd.id → ∃ t, some s = some t ∧ ¬t = "" ∧ normalize_shortcut t = .ok p.1
      by_cases hs0 : s = ""
      · rw [if_pos hs0]
        intro p hp hval
        exact absurd hval (hstale p hp)
      · rw [if_neg hs0]
        intro p hp hval
        rcases mem_bind_shortcut _ _ _ _ p hp with h | ⟨key, hkey, hpeq⟩
        · exact absurd hval (hstale p h)
        · subst hpeq
          exact ⟨s, rfl, hs0, hkey⟩

def c5Cmd : Command Unit Nat := { id := "a", label := "A", handler := fun _ => 0 }

def c5CmdB : Command Unit Nat :=
  { id := "b", label := "B", handler := fun _ => 0, shortcut := some "ctrl+n" }

/-- A registry with `"b"` registered and a stale shortcut binding pointing at
it, for exercising the replace branch of `register`. -/
def c5RegW : CommandRegistry Unit Nat :=
  (bind_shortcut (register .empty { id := "b", label := "B0", handler := fun _ => 9 } false).1
    "ctrl+o" "b" false).1

/-- Witness for C5: a concrete operation sequence keeps the invariant, and
the replace-branch consequence holds at a concrete registry. -/
theorem C5_shortcut_index_invariant_witness :
    ShortcutIndexInv (applyOps (CommandRegistry.empty : CommandRegistry Unit Nat)
      [.register c5Cmd false, .bind "ctrl+x" "a" false, .unregister "a"])
    ∧ ∃ s, c5CmdB.shortcut = some s ∧ ¬s = "" ∧ normalize_shortcut s = .ok "CTRL+N" := by
  constructor
  · exact C5_shortcut_index_invariant.1 _
  · exact C5_shortcut_index_invariant.2.2 c5RegW c5CmdB (by decide) (by decide)
      ("CTRL+N", "b") (by decide) rfl

-- ---------------------------------------------------------------------------
-- Claim C4
-- ---------------------------------------------------------------------------

/-- The component layer of the router's resolution, as the spec describes it:
it produces an id only when a focus provider is set, returns a non-null id,
and that id has a registered component keymap which resolves the keyseq. -/
def componentLayerHit {γ κ : Type _} (r : KeyRouter γ κ) (keyseq : String) : Option String :=
  match (match r.focus_provider with | some f => f () | none => none) with
  | some fid =>
    if fid = "" then none
    else
      match alookup r.component_keymaps fid with
      | some km =>
        (match km.resolve_keyseq keyseq with
         | some cid => if cid = "" then none else some cid
         | none => none)
      | none => none
  | none => none

/-- The mode layer of the router's resolution, as the spec describes it: it
produces an id only when a mode is set and has a registered keymap which
resolves the keyseq. -/
def modeLayerHit {γ κ : Type _} (r : KeyRouter γ κ) (keyseq : String) : Option String :=
  match r.mode with
  | some m =>
    if m = "" then none
    else
      match alookup r.mode_keymaps m with
      | some km =>
        (match km.resolve_keyseq keyseq with
         | some cid => if cid = "" then none else some cid
         | none => none)
      | none => none
  | none => none

theorem resolve_command_id_eq_layers {γ κ : Type _} (r : KeyRouter γ κ) (k : String) :
    r.resolve_command_id k =
      match componentLayerHit r k with
      | some cid => some cid
      | none =>
        match modeLayerHit r k with
        | some cid => some cid
        | none => r.global_keymap.resolve_keyseq k := rfl

/-- Claim C4: resolution is component layer first (consulted only under the
focus conditions), then mode layer, then global; the first hit wins, a hit in
a higher layer makes the result independent of every lower layer (the mode
and global maps can be replaced arbitrarily without changing it), and only
when both higher layers yield nothing is the global keymap's answer
returned. -/
theorem C4_resolution_layering {γ κ : Type _} (r : KeyRouter γ κ) (k : String) :
    (∀ c, componentLayerHit r k = some c →
      r.resolve_command_id k = some c
      ∧ ∀ (gm : KeyMap) (mm : List (String × KeyMap)) (mo : Option String),
          KeyRouter.resolve_command_id
            { r with global_keymap := gm, mode_keymaps := mm, mode := mo } k = some c)
    ∧ (componentLayerHit r k = none → ∀ c, modeLayerHit r k = some c →
      r.resolve_command_id k = some c
      ∧ ∀ gm : KeyMap,
          KeyRouter.resolve_command_id { r with global_keymap := gm } k = some c)
    ∧ (componentLayerHit r k = none → modeLayerHit r k = none →
      r.resolve_command_id k = r.global_keymap.resolve_keyseq k) := by
  refine ⟨?_, ?_, ?_⟩
  · intro c hc
    constructor
    · rw [resolve_command_id_eq_layers, hc]
    · intro gm mm mo
      have hc' : componentLayerHit
          ({ r with global_keymap := gm, mode_keymaps := mm, mode := mo } : KeyRouter γ κ) k
          = some c := hc
      rw [resolve_command_id_eq_layers, hc']
  · intro hc c hm
    constructor
    · rw [resolve_command_id_eq_layers, hc, hm]
    · intro gm
      have hc' : componentLayerHit ({ r with global_keymap := gm } : KeyRouter γ κ) k
          = none := hc
      have hm' : modeLayerHit ({ r with global_keymap := gm } : KeyRouter γ κ) k
          = some c := hm
      rw [resolve_command_id_eq_layers, hc', hm']
  · intro hc hm
    rw [resolve_command_id_eq_layers, hc, hm]

def c4Reg : CommandRegistry Unit Nat :=
  (register (register (register .empty
    { id := "g", label := "G", handler := fun _ => 1 } false).1
    { id := "m", label := "M", handler := fun _ => 2 } false).1
    { id := "f", label := "F", handler := fun _ => 3 } false).1

def c4GlobalKm : KeyMap := (KeyMap.bind {} "<Control-k>" "g" true).1

def c4ModeKm : KeyMap := (KeyMap.bind {} "<Control-k>" "m" true).1

def c4FocusKm : KeyMap := (KeyMap.bind {} "<Control-k>" "f" true).1

/-- The spec's layering test scenario: all three layers bind the same keyseq
to different commands, a mode is active, and the focus id has a registered
component keymap. -/
def c4Router : KeyRouter Unit Nat :=
  { registry := c4Reg, global_keymap := c4GlobalKm,
    mode_keymaps := [("edit", c4ModeKm)], mode := some "edit",
    component_keymaps := [("editor", c4FocusKm)],
    focus_provider := some (fun _ => some "editor") }

/-- Witness for C4: the component-layer command wins, and the result is
unchanged when the mode and global layers are replaced. -/
theorem C4_resolution_layering_witness :
    c4Router.resolve_command_id "<Control-k>" = some "f"
    ∧ KeyRouter.resolve_command_id
        { c4Router with global_keymap := {}, mode_keymaps := [], mode := none }
        "<Control-k>" = some "f" := by
  have h := (C4_resolution_layering c4Router "<Control-k>").1 "f" (by rfl)
  exact ⟨h.1, h.2 {} [] none⟩

-- ---------------------------------------------------------------------------
-- Claim C8
-- ---------------------------------------------------------------------------

/-- Well-formedness of a keymap state: `bind` rejects empty key sequences and
empty command ids, so every binding has a non-empty key and value. -/
def KeyMapWF (m : KeyMap) : Prop := ∀ p ∈ m.bindings, p.1 ≠ "" ∧ p.2 ≠ ""

instance (m : KeyMap) : Decidable (KeyMapWF m) := by
  unfold KeyMapWF
  infer_instance

theorem keyMapWF_bind (m : KeyMap) (keyseq command_id : String) (overwrite : Bool)
    (hwf : KeyMapWF m) : KeyMapWF (KeyMap.bind m keyseq command_id overwrite).1 := by
  unfold KeyMap.bind
  by_cases h1 : keyseq = ""
  · simpa [h1] using hwf
  · by_cases h2 : command_id = ""
    · simpa [h1, h2] using hwf
    · by_cases h3 : overwrite = false ∧ (alookup m.bindings keyseq).isSome
      · simpa [h1, h2, h3] using hwf
      · intro p hp
        simp only [if_neg h1, if_neg h2, if_neg h3] at hp
        rcases mem_aupdate hp with h | h
        · subst h
          exact ⟨h1, h2⟩
        · exact hwf p h

theorem keyMapWF_unbind (m : KeyMap) (keyseq : String) (hwf : KeyMapWF m) :
    KeyMapWF (KeyMap.unbind m keyseq) := by
  intro p hp
  exact hwf p (mem_aeraseKey hp).1

/-- Claim C8: on any well-formed keymap state, `resolve_keyseq` returns the
command id bound to the exact raw input whenever one exists; only when no
exact binding exists does it consult the platform-translated form, and then
only when that form differs from the input — so a raw binding is never
shadowed by a binding under the translated canonical form. -/
theorem C8_raw_binding_precedence (m : KeyMap) (keyseq : String) (hwf : KeyMapWF m) :
    (∀ cid, alookup m.bindings keyseq = some cid → m.resolve_keyseq keyseq = some cid)
    ∧ (alookup m.bindings keyseq = none →
        m.resolve_keyseq keyseq =
          if tk_to_canonical keyseq = keyseq then none
          else alookup m.bindings (tk_to_canonical keyseq)) := by
  constructor
  · intro cid hlook
    have hmem := mem_alookup hlook
    have hkey : keyseq ≠ "" := (hwf _ hmem).1
    have hcid : cid ≠ "" := (hwf _ hmem).2
    simp [KeyMap.resolve_keyseq, hkey, hlook, hcid]
  · intro hlook
    by_cases hkey : keyseq = ""
    · subst hkey
      have hcanon : tk_to_canonical "" = "" := rfl
      simp [KeyMap.resolve_keyseq, hcanon]
    · simp [KeyMap.resolve_keyseq, hkey, hlook]

/-- A keymap holding both a raw Tk-form binding and a binding under its
canonical translation. -/
def c8Map : KeyMap :=
  (KeyMap.bind (KeyMap.bind {} "CTRL+Q" "canon" true).1 "<Control-q>" "raw" true).1

/-- Witness for C8: the raw binding wins over the canonical one, and an
unbound raw input falls through to the canonical binding. -/
theorem C8_raw_binding_precedence_witness :
    c8Map.resolve_keyseq "<Control-q>" = some "raw"
    ∧ c8Map.resolve_keyseq "<Ctrl-q>" =
        if tk_to_canonical "<Ctrl-q>" = "<Ctrl-q>" then none
        else alookup c8Map.bindings (tk_to_canonical "<Ctrl-q>") := by
  have h := C8_raw_binding_precedence c8Map "<Control-q>" (by decide)
  have h2 := C8_raw_binding_precedence c8Map "<Ctrl-q>" (by decide)
  exact ⟨h.1 "raw" (by rfl), h2.2 (by rfl)⟩

-- ---------------------------------------------------------------------------
-- Claim C9: character, trim and split lemmas
-- ---------------------------------------------------------------------------

theorem mem_alookupChar {l : List (Char × Char)} {c u : Char}
    (h : alookupChar l c = some u) : (c, u) ∈ l := by
  induction l with
  | nil => simp [alookupChar] at h
  | cons p t ih =>
    obtain ⟨k, v⟩ := p
    by_cases hk : k = c
    · subst hk
      simp only [alookupChar, if_pos rfl] at h
      obtain rfl : v = u := by injection h
      exact List.mem_cons_self _ _
    · simp only [alookupChar, if_neg hk] at h
      exact List.mem_cons_of_mem _ (ih h)

theorem upChar_upChar (c : Char) : upChar (upChar c) = upChar c := by
  unfold upChar
  cases h : alookupChar LOWER_TO_UPPER c with
  | none => rw [h]
  | some u =>
    have hmem := mem_alookupChar h
    have hfix : ∀ p ∈ LOWER_TO_UPPER, alookupChar LOWER_TO_UPPER p.2 = none := by decide
    rw [hfix (c, u) hmem]

theorem isSpace_upChar (c : Char) : isSpace (upChar c) = isSpace c := by
  unfold upChar
  cases h : alookupChar LOWER_TO_UPPER c with
  | none => rfl
  | some u =>
    have hmem := mem_alookupChar h
    have hsp : ∀ p ∈ LOWER_TO_UPPER, isSpace p.1 = false ∧ isSpace p.2 = false := by decide
    rw [(hsp (c, u) hmem).2, (hsp (c, u) hmem).1]

theorem upChar_eq_plus {c : Char} (h : upChar c = '+') : c = '+' := by
  unfold upChar at h
  cases hl : alookupChar LOWER_TO_UPPER c with
  | none => rwa [hl] at h
  | some u =>
    rw [hl] at h
    have hmem := mem_alookupChar hl
    have hnp : ∀ p ∈ LOWER_TO_UPPER, p.2 ≠ '+' := by decide
    exact absurd h (hnp (c, u) hmem)

theorem head?_dropWhile_false {α : Type _} {p : α → Bool} (l : List α) {c : α}
    (h : (l.dropWhile p).head? = some c) : p c = false := by
  induction l with
  | nil => simp [List.dropWhile] at h
  | cons a t ih =>
    by_cases hpa : p a
    · rw [List.dropWhile_cons_of_pos hpa] at h
      exact ih h
    · rw [List.dropWhile_cons_of_neg hpa] at h
      obtain rfl : a = c := by injection h
      exact Bool.not_eq_true _ ▸ by simpa using hpa

theorem dropWhile_eq_self_of_head {α : Type _} {p : α → Bool} {l : List α}
    (h : ∀ c, l.head? = some c → p c = false) : l.dropWhile p = l := by
  cases l with
  | nil => rfl
  | cons a t =>
    have := h a rfl
    rw [List.dropWhile_cons_of_neg (by simp [this])]

theorem mem_of_mem_dropWhile {α : Type _} {p : α → Bool} {l : List α} {x : α}
    (h : x ∈ l.dropWhile p) : x ∈ l := by
  induction l with
  | nil => simpa [List.dropWhile] using h
  | cons a t ih =>
    by_cases hpa : p a
    · rw [List.dropWhile_cons_of_pos hpa] at h
      exact List.mem_cons_of_mem _ (ih h)
    · rwa [List.dropWhile_cons_of_neg hpa] at h

theorem mem_trimChars {l : List Char} {x : Char} (h : x ∈ trimChars l) : x ∈ l := by
  unfold trimChars at h
  rw [List.mem_reverse] at h
  have h1 := mem_of_mem_dropWhile h
  rw [List.mem_reverse] at h1
  exact mem_of_mem_dropWhile h1

theorem getLast?_dropWhile_of_ne_nil {α : Type _} {p : α → Bool} {l : List α}
    (h : l.dropWhile p ≠ []) : (l.dropWhile p).getLast? = l.getLast? := by
  induction l with
  | nil => rfl
  | cons a t ih =>
    by_cases hpa : p a
    · rw [List.dropWhile_cons_of_pos hpa] at h ⊢
      rw [ih h]
      have ht : t ≠ [] := by
        intro hcontra
        subst hcontra
        simp [List.dropWhile] at h
      cases t with
      | nil => exact absurd rfl ht
      | cons b u => simp [List.getLast?_cons_cons]
    · rw [List.dropWhile_cons_of_neg hpa]

theorem head?_trimChars_false {l : List Char} {c : Char}
    (h : (trimChars l).head? = some c) : isSpace c = false := by
  unfold trimChars at h
  rw [List.head?_reverse] at h
  have hne : (l.dropWhile isSpace).reverse.dropWhile isSpace ≠ [] := by
    intro hcontra
    rw [hcontra] at h
    simp at h
  rw [getLast?_dropWhile_of_ne_nil hne, List.getLast?_reverse] at h
  exact head?_dropWhile_false _ h

theorem getLast?_trimChars_false {l : List Char} {c : Char}
    (h : (trimChars l).getLast? = some c) : isSpace c = false := by
  unfold trimChars at h
  rw [List.getLast?_reverse] at h
  exact head?_dropWhile_false _ h

theorem trimChars_eq_self_of_ends {l : List Char}
    (hh : ∀ c, l.head? = some c → isSpace c = false)
    (hl : ∀ c, l.getLast? = some c → isSpace c = false) : trimChars l = l := by
  unfold trimChars
  rw [dropWhile_eq_self_of_head hh]
  have : l.reverse.dropWhile isSpace = l.reverse := by
    refine dropWhile_eq_self_of_head ?_
    intro c hc
    rw [List.head?_reverse] at hc
    exact hl c hc
  rw [this, List.reverse_reverse]

theorem trimChars_idem (l : List Char) : trimChars (trimChars l) = trimChars l :=
  trimChars_eq_self_of_ends (fun _ h => head?_trimChars_false h)
    (fun _ h => getLast?_trimChars_false h)

theorem trimChars_map_upChar (l : List Char) :
    trimChars (l.map upChar) = (trimChars l).map upChar := by
  unfold trimChars
  rw [List.dropWhile_map, List.map_reverse]
  have h1 : (fun c => isSpace (upChar c)) = isSpace := by
    funext c
    exact isSpace_upChar c
  rw [show (isSpace ∘ upChar) = isSpace from h1]
  rw [← List.map_reverse, List.dropWhile_map, show (isSpace ∘ upChar) = isSpace from h1]

theorem splitOnChar_ne_nil (sep : Char) (l : List Char) : splitOnChar sep l ≠ [] := by
  cases l with
  | nil => simp [splitOnChar]
  | cons c rest =>
    by_cases h : c = sep
    · simp [splitOnChar, h]
    · simp only [splitOnChar, if_neg h]
      cases splitOnChar sep rest <;> simp

theorem not_mem_of_mem_splitOnChar {sep : Char} {l : List Char} {t : List Char}
    (ht : t ∈ splitOnChar sep l) : sep ∉ t := by
  induction l generalizing t with
  | nil =>
    simp only [splitOnChar, List.mem_singleton] at ht
    subst ht
    simp
  | cons c rest ih =>
    by_cases h : c = sep
    · simp only [splitOnChar, if_pos h] at ht
      rcases List.mem_cons.mp ht with h1 | h1
      · subst h1
        simp
      · exact ih h1
    · simp only [splitOnChar, if_neg h] at ht
      cases hsp : splitOnChar sep rest with
      | nil => exact absurd hsp (splitOnChar_ne_nil sep rest)
      | cons p ps =>
        rw [hsp] at ht
        rcases List.mem_cons.mp ht with h1 | h1
        · subst h1
          intro hmem
          rcases List.mem_cons.mp hmem with h2 | h2
          · exact h h2.symm
          · exact ih (hsp ▸ List.mem_cons_self p ps) h2
        · exact ih (hsp ▸ List.mem_cons_of_mem p h1)

theorem splitOnChar_eq_single {sep : Char} {t : List Char} (h : sep ∉ t) :
    splitOnChar sep t = [t] := by
  induction t with
  | nil => rfl
  | cons c rest ih =>
    have hc : ¬c = sep := fun hh => h (hh ▸ List.mem_cons_self c rest)
    have hrest : sep ∉ rest := fun hh => h (List.mem_cons_of_mem c hh)
    simp only [splitOnChar, if_neg hc, ih hrest]

theorem splitOnChar_append {sep : Char} {t r : List Char} (h : sep ∉ t) :
    splitOnChar sep (t ++ sep :: r) = t :: splitOnChar sep r := by
  induction t with
  | nil => simp [splitOnChar]
  | cons c rest ih =>
    have hc : ¬c = sep := fun hh => h (hh ▸ List.mem_cons_self c rest)
    have hrest : sep ∉ rest := fun hh => h (List.mem_cons_of_mem c hh)
    simp only [List.cons_append, splitOnChar, List.append_eq, if_neg hc, ih hrest]

theorem splitOnChar_joinPlus {ts : List (List Char)} (hne : ts ≠ [])
    (hfree : ∀ t ∈ ts, '+' ∉ t) : splitOnChar '+' (joinPlus ts) = ts := by
  induction ts with
  | nil => exact absurd rfl hne
  | cons t rest ih =>
    cases rest with
    | nil =>
      show splitOnChar '+' (joinPlus [t]) = [t]
      exact splitOnChar_eq_single (hfree t (List.mem_cons_self _ _))
    | cons t2 rest2 =>
      show splitOnChar '+' (t ++ '+' :: joinPlus (t2 :: rest2)) = t :: t2 :: rest2
      rw [splitOnChar_append (hfree t (List.mem_cons_self _ _))]
      rw [ih (by simp) (fun u hu => hfree u (List.mem_cons_of_mem t hu))]

theorem head?_joinPlus {t : List Char} {ts : List (List Char)} (h : t ≠ []) :
    (joinPlus (t :: ts)).head? = t.head? := by
  cases ts with
  | nil => rfl
  | cons t2 rest =>
    show (t ++ '+' :: joinPlus (t2 :: rest)).head? = t.head?
    cases t with
    | nil => exact absurd rfl h
    | cons a u => rfl

theorem getLast?_joinPlus {t : List Char} (ts : List (List Char)) (h : t ≠ []) :
    (joinPlus (ts ++ [t])).getLast? = t.getLast? := by
  induction ts with
  | nil => rfl
  | cons a rest ih =>
    have hmid : (rest ++ [t]) ≠ [] := by simp
    show (joinPlus (a :: (rest ++ [t]))).getLast? = t.getLast?
    cases hr : rest ++ [t] with
    | nil => exact absurd hr hmid
    | cons b u =>
      show (a ++ '+' :: joinPlus (b :: u)).getLast? = t.getLast?
      rw [List.getLast?_append]
      have hne2 : joinPlus (b :: u) ≠ [] := by
        intro hcontra
        have : (joinPlus (rest ++ [t])).getLast? = t.getLast? := ih
        rw [hr, hcontra] at this
        have ht : t.getLast? = none := this.symm
        rw [List.getLast?_eq_none_iff] at ht
        exact h ht
      have : ('+' :: joinPlus (b :: u)).getLast? = (joinPlus (b :: u)).getLast? := by
        cases hj : joinPlus (b :: u) with
        | nil => exact absurd hj hne2
        | cons x y => simp [List.getLast?_cons_cons]
      rw [this, ← hr, ih]
      cases ht : t.getLast? with
      | none => exact absurd (List.getLast?_eq_none_iff.mp ht) h
      | some x => rfl

theorem filterMap_eq_self_of {α : Type _} {f : α → Option α} {l : List α}
    (h : ∀ x ∈ l, f x = some x) : l.filterMap f = l := by
  induction l with
  | nil => rfl
  | cons a t ih =>
    rw [List.filterMap_cons_some (h a (List.mem_cons_self _ _)),
      ih (fun x hx => h x (List.mem_cons_of_mem a hx))]

theorem filterMap_eq_nil_of {α β : Type _} {f : α → Option β} {l : List α}
    (h : ∀ x ∈ l, f x = none) : l.filterMap f = [] := by
  induction l with
  | nil => rfl
  | cons a t ih =>
    rw [List.filterMap_cons_none (h a (List.mem_cons_self _ _)),
      ih (fun x hx => h x (List.mem_cons_of_mem a hx))]

theorem contains_listChar_iff {l : List (List Char)} {a : List Char} :
    l.contains a = true ↔ a ∈ l := by
  simp [List.contains, List.elem_iff]

theorem mem_shortcutKeys {parts : List (List Char)} {k : List Char}
    (h : k ∈ shortcutKeys parts) : ∃ p ∈ parts, k = p.map upChar ∧ modOf k = none := by
  unfold shortcutKeys at h
  rw [List.mem_filterMap] at h
  obtain ⟨p, hp, hf⟩ := h
  by_cases hm : (modOf (p.map upChar)).isSome
  · simp [hm] at hf
  · simp only [if_neg hm] at hf
    obtain hup : p.map upChar = k := by injection hf
    refine ⟨p, hp, hup.symm, ?_⟩
    rw [← hup]
    exact Option.not_isSome_iff_eq_none.mp hm

/-- Applying `normalize_shortcut` to an already-canonical string — some of
the four modifiers in canonical order joined with a key token that is
uppercase-fixed, non-modifier, non-empty, trimmed and `+`-free — returns the
string unchanged. -/
theorem normalize_canonical_form (f : List Char → Bool) (k : List Char)
    (hk_ne : k ≠ []) (hk_up : k.map upChar = k) (hk_mod : modOf k = none)
    (hk_plus : '+' ∉ k) (hk_trim : trimChars k = k) :
    normalize_shortcut ⟨joinPlus (MOD_ORDER.filter f ++ [k])⟩
      = .ok ⟨joinPlus (MOD_ORDER.filter f ++ [k])⟩ := by
  have hmod_facts : ∀ m ∈ MOD_ORDER, m ≠ [] ∧ trimChars m = m ∧ '+' ∉ m
      ∧ m.map upChar = m ∧ modOf m = some m := by decide
  set ordered := MOD_ORDER.filter f with hord
  have hOrdMem : ∀ m ∈ ordered, m ∈ MOD_ORDER := fun m hm => List.mem_of_mem_filter hm
  set toks := ordered ++ [k] with htoks
  set J := joinPlus toks with hJ
  have htok_all : ∀ t ∈ toks, t ≠ [] ∧ trimChars t = t ∧ '+' ∉ t := by
    intro t ht
    rcases List.mem_append.mp ht with hmem | hmem
    · have hfact := hmod_facts t (hOrdMem t hmem)
      exact ⟨hfact.1, hfact.2.1, hfact.2.2.1⟩
    · rw [List.mem_singleton] at hmem
      subst hmem
      exact ⟨hk_ne, hk_trim, hk_plus⟩
  have htoks_ne : toks ≠ [] := by simp [htoks]
  have hlastJ : J.getLast? = k.getLast? := by
    rw [hJ, htoks]
    exact getLast?_joinPlus ordered hk_ne
  have hhead : ∀ c, J.head? = some c → isSpace c = false := by
    intro c hc
    rw [hJ, htoks] at hc
    cases hcase : ordered with
    | nil =>
      rw [hcase] at hc
      have hk : (trimChars k).head? = some c := by
        rw [hk_trim]
        exact hc
      exact head?_trimChars_false hk
    | cons m rest =>
      rw [hcase] at hc
      have hmne : m ≠ [] := (hmod_facts m (hOrdMem m (hcase ▸ List.mem_cons_self m rest))).1
      rw [List.cons_append, head?_joinPlus hmne] at hc
      have hmtrim : trimChars m = m :=
        (hmod_facts m (hOrdMem m (hcase ▸ List.mem_cons_self m rest))).2.1
      have hm : (trimChars m).head? = some c := by
        rw [hmtrim]
        exact hc
      exact head?_trimChars_false hm
  have hlast : ∀ c, J.getLast? = some c → isSpace c = false := by
    intro c hc
    rw [hlastJ] at hc
    have hk : (trimChars k).getLast? = some c := by
      rw [hk_trim]
      exact hc
    exact getLast?_trimChars_false hk
  have htrimJ : trimChars J = J := trimChars_eq_self_of_ends hhead hlast
  have hJne : J ≠ [] := by
    intro hcontra
    rw [hcontra] at hlastJ
    have : k = [] := List.getLast?_eq_none_iff.mp hlastJ.symm
    exact hk_ne this
  have hsplit : splitOnChar '+' J = toks := by
    rw [hJ]
    exact splitOnChar_joinPlus htoks_ne (fun t ht => (htok_all t ht).2.2)
  have hparts : shortcutParts J = toks := by
    unfold shortcutParts
    rw [hsplit]
    have hmap : toks.map trimChars = toks := by
      have := List.map_congr_left (l := toks) (f := trimChars) (g := id)
        (fun t ht => (htok_all t ht).2.1)
      rw [this, List.map_id]
    rw [hmap]
    refine List.filter_eq_self.mpr ?_
    intro t ht
    simpa using (htok_all t ht).1
  have hmods : shortcutMods toks = ordered := by
    unfold shortcutMods
    rw [htoks, List.filterMap_append]
    have h1 : ordered.filterMap (fun p => modOf (p.map upChar)) = ordered := by
      refine filterMap_eq_self_of ?_
      intro m hm
      rw [(hmod_facts m (hOrdMem m hm)).2.2.2.1]
      exact (hmod_facts m (hOrdMem m hm)).2.2.2.2
    have h2 : List.filterMap (fun p => modOf (p.map upChar)) [k] = [] := by
      simp [hk_up, hk_mod]
    rw [h1, h2, List.append_nil]
  have hkeys : shortcutKeys toks = [k] := by
    unfold shortcutKeys
    rw [htoks, List.filterMap_append]
    have h1 : ordered.filterMap (fun p =>
        if (modOf (p.map upChar)).isSome then none else some (p.map upChar)) = [] := by
      refine filterMap_eq_nil_of ?_
      intro m hm
      rw [(hmod_facts m (hOrdMem m hm)).2.2.2.1, (hmod_facts m (hOrdMem m hm)).2.2.2.2]
      rfl
    have h2 : List.filterMap (fun p =>
        if (modOf (p.map upChar)).isSome then none else some (p.map upChar)) [k] = [k] := by
      simp [hk_up, hk_mod]
    rw [h1, h2, List.nil_append]
  have hcontains : MOD_ORDER.filter (fun m => (shortcutMods toks).contains m) = ordered := by
    rw [hmods, hord]
    refine List.filter_congr ?_
    intro m hm
    cases hf : f m
    · have hnot : m ∉ MOD_ORDER.filter f := by
        intro hcmem
        rw [List.mem_filter, hf] at hcmem
        exact absurd hcmem.2 (by simp)
      have : ¬((MOD_ORDER.filter f).contains m = true) :=
        fun hcon => hnot (contains_listChar_iff.mp hcon)
      simpa using this
    · exact contains_listChar_iff.mpr (List.mem_filter.mpr ⟨hm, hf⟩)
  unfold normalize_shortcut
  rw [show trimChars (String.mk J).data = J from htrimJ]
  simp only [(List.isEmpty_eq_false.mpr hJne : J.isEmpty = false), hparts,
    (List.isEmpty_eq_false.mpr htoks_ne : toks.isEmpty = false),
    Bool.false_eq_true, if_false, hkeys, hcontains]

/-- Claim C9: normalization is round-trip stable — whenever
`normalize_shortcut` succeeds, applying it again to the canonical output
returns the same canonical string. -/
theorem C9_normalize_idempotent (s c : String) (h : normalize_shortcut s = .ok c) :
    normalize_shortcut c = .ok c := by
  unfold normalize_shortcut at h
  dsimp only at h
  split at h
  · exact absurd h (by simp)
  · split at h
    · exact absurd h (by simp)
    · split at h
      case _ k heq =>
        obtain rfl : (⟨joinPlus (MOD_ORDER.filter (fun m =>
            (shortcutMods (shortcutParts (trimChars s.data))).contains m) ++ [k])⟩ : String)
            = c := by injection h
        have hk : k ∈ shortcutKeys (shortcutParts (trimChars s.data)) := by
          rw [heq]
          exact List.mem_cons_self _ _
        obtain ⟨p, hp, hkup, hkmod⟩ := mem_shortcutKeys hk
        unfold shortcutParts at hp
        rw [List.mem_filter] at hp
        obtain ⟨hpmem, hpne⟩ := hp
        rw [List.mem_map] at hpmem
        obtain ⟨piece, hpiece, hptrim⟩ := hpmem
        have hp_ne : p ≠ [] := by
          intro hcontra
          rw [hcontra] at hpne
          simp at hpne
        have hp_plus : '+' ∉ p := by
          intro hmem
          refine not_mem_of_mem_splitOnChar hpiece ?_
          rw [← hptrim] at hmem
          exact mem_trimChars hmem
        have hp_trim : trimChars p = p := by
          rw [← hptrim]
          exact trimChars_idem piece
        have hk_ne : k ≠ [] := by
          rw [hkup]
          simpa using hp_ne
        have hk_up : k.map upChar = k := by
          rw [hkup, List.map_map]
          exact List.map_congr_left (fun a _ => upChar_upChar a)
        have hk_plus : '+' ∉ k := by
          rw [hkup]
          intro hmem
          rw [List.mem_map] at hmem
          obtain ⟨x, hx, hxup⟩ := hmem
          rw [upChar_eq_plus hxup] at hx
          exact hp_plus hx
        have hk_trim : trimChars k = k := by
          rw [hkup, trimChars_map_upChar, hp_trim]
        exact normalize_canonical_form _ k hk_ne hk_up hkmod hk_plus hk_trim
      case _ hne =>
        exact absurd h (by simp)

/-- Witness for C9 at a concrete shortcut. -/
theorem C9_normalize_idempotent_witness :
    normalize_shortcut "CTRL+SHIFT+P" = .ok "CTRL+SHIFT+P" :=
  C9_normalize_idempotent "Ctrl + Shift + p" "CTRL+SHIFT+P" (by rfl)
